import Mathlib

/- Verification of the Letter Upload Validation & Send Pipeline of the
emergency-alerts-admin repository.  The view module `app/main/views/uploads.py`
itself is not part of the corpus (only its test suite
`src/tests/app/main/views/test_uploads.py` is), so the operations below are
shallow embeddings modelled from the specification's description of the
pipeline, cross-checked against the concrete behaviours pinned by that test
suite. -/

namespace Uploads

/- ## Recipient address normalizer -/

/-- Separator characters of the recipient address normalizer: comma, newline
and carriage return split the address into segments. -/
def isSep (c : Char) : Bool := c == ',' || c == '\n' || c == '\r'

/-- Whitespace characters, used for trimming segments and collapsing internal
whitespace runs. -/
def isWs (c : Char) : Bool := c == ' ' || c == '\t' || c == '\n' || c == '\r'

/-- Split a character list at every character satisfying `p`.  Returns the
first piece and the list of remaining pieces, so the full list of pieces is
always non-empty. -/
def splitCore (p : Char → Bool) : List Char → List Char × List (List Char)
  | [] => ([], [])
  | c :: cs =>
    if p c then ([], (splitCore p cs).1 :: (splitCore p cs).2)
    else (c :: (splitCore p cs).1, (splitCore p cs).2)

/-- All the pieces obtained by splitting `l` at characters satisfying `p`. -/
def piecesOn (p : Char → Bool) (l : List Char) : List (List Char) :=
  (splitCore p l).1 :: (splitCore p l).2

/-- The maximal whitespace-free words of a segment, in order. -/
def wordsOf (l : List Char) : List (List Char) :=
  (piecesOn isWs l).filter (fun w => !w.isEmpty)

/-- Join a list of pieces, interposing `sep` between consecutive pieces. -/
def joinSep (sep : List Char) : List (List Char) → List Char
  | [] => []
  | [x] => x
  | x :: y :: rest => x ++ sep ++ joinSep sep (y :: rest)

/-- Clean one comma-level segment: trim leading and trailing whitespace and
collapse every internal whitespace run to a single space.  Equivalently, the
whitespace-free words of the segment joined by single spaces. -/
def cleanSeg (seg : List Char) : List Char :=
  joinSep [' '] (wordsOf seg)

/-- The surviving (cleaned, non-empty) segments of an address. -/
def segmentsOf (l : List Char) : List (List Char) :=
  ((piecesOn isSep l).map cleanSeg).filter (fun s => !s.isEmpty)

/-- Normalize an address: split on comma / newline / carriage return, trim
each segment, drop empty segments, collapse internal whitespace runs, and join
the surviving segments with a comma and a space. -/
def normalizeChars (l : List Char) : List Char :=
  joinSep [',', ' '] (segmentsOf l)

/-- Modelled from the spec: `format_recipient` of `app/main/views/uploads.py`
(the module is absent from the corpus; the test suite imports it).  Spec §4.5:
treat comma, newline and carriage return as segment separators; trim each
segment; drop empty segments; collapse internal whitespace runs in each
segment to a single space; join surviving segments with a comma and a space.
The URL-unquoting the view applies to its stored input is the inverse of the
quoting the tests apply, so it is omitted here and the function acts on plain
text. -/
def format_recipient (s : String) : String :=
  String.mk (normalizeChars s.data)

/-- Holds when no two adjacent characters are both commas. -/
def noDoubledCommas : List Char → Bool
  | a :: b :: rest => (!(a == ',' && b == ',')) && noDoubledCommas (b :: rest)
  | _ => true

/-- Holds when the first character, if any, is not a separator. -/
def noHeadSep : List Char → Bool
  | [] => true
  | c :: _ => !isSep c

/-- Holds when neither the first nor the last character is a separator. -/
def noEdgeSep (l : List Char) : Bool := noHeadSep l && noHeadSep l.reverse

/- ## Upload pipeline: data model -/

/-- Modelled from the spec: an `UploadedFile` is the transient submission —
raw bytes, declared size and declared name (§3). -/
structure UploadedFile where
  bytes : List Nat
  size : Nat
  filename : String
deriving DecidableEq

/-- Outcome of the local structural PDF checks (§4.1). -/
inductive PdfCheck
  | ok
  | tooBig
  | wrongType
  | malformed
deriving DecidableEq

/-- The 2 MiB size limit on uploaded letters. -/
def MAX_FILE_UPLOAD_SIZE : Nat := 2 * 1024 * 1024

/-- The five leading bytes of a PDF file. -/
def pdfSignatureBytes : List Nat := [37, 80, 68, 70, 45]

/-- The five bytes of the PDF end-of-file marker. -/
def eofMarkerBytes : List Nat := [37, 37, 69, 79, 70]

/-- Whitespace bytes tolerated after the end-of-file marker. -/
def isWsByte (b : Nat) : Bool := b == 32 || b == 10 || b == 13 || b == 9

/-- Modelled from the spec: the byte signature identifies a PDF (§4.1 b). -/
def hasPdfSignature (bytes : List Nat) : Bool :=
  bytes.take 5 == pdfSignatureBytes

/-- Modelled from the spec: the trailing document structure (end-of-file
marker) is well-formed (§4.1 c). -/
def hasEofMarker (bytes : List Nat) : Bool :=
  ((bytes.reverse.dropWhile isWsByte).take 5).reverse == eofMarkerBytes

/-- Modelled from the spec: `PdfStructuralValidator` (§4.1).  Checks run in a
fixed order, first failure wins: size, then byte signature, then end-of-file
marker.  Local only — no network call. -/
def validatePdf (f : UploadedFile) : PdfCheck :=
  if f.size > MAX_FILE_UPLOAD_SIZE then .tooBig
  else if !hasPdfSignature f.bytes then .wrongType
  else if !hasEofMarker f.bytes then .malformed
  else .ok

/-- The metadata tags persisted (and later read back) alongside a letter:
`{status, page_count, filename, recipient?, message?, invalid_pages?}`
(§3, §6). -/
structure LetterMetadata where
  status : String
  page_count : Nat
  filename : String
  recipient : Option String
  message : Option String
  invalid_pages : Option (List Nat)
deriving DecidableEq

/-- An external capability invocation made by the orchestrator during one
submission, in order (§6). -/
inductive ExtCall
  | scan (bytes : List Nat)
  | sanitise (bytes : List Nat)
  | put (key : String) (content : List Nat) (tags : LetterMetadata)
deriving DecidableEq

/-- The three possible behaviours of the sanitization gateway (§4.3): success
with sanitized content and a recipient address, a structured rejection with a
message and the invalid pages, or any other (transport-level) failure. -/
inductive SanitiseOutcome
  | success (sanitizedContent : List Nat) (recipientAddress : String)
      (reportedPageCount : Option Nat)
  | rejection (message : String) (invalid_pages : List Nat)
  | failure (error : String)
deriving DecidableEq

/-- The behaviour of the external collaborators during one submission: the
antivirus scan result, the sanitization outcome, and the locally derived page
count. -/
structure Env where
  scanResult : Bool
  sanitiseResult : SanitiseOutcome
  localPageCount : Nat
deriving DecidableEq

/-- The user-facing outcome of one submission (§4.4, §7). -/
inductive UploadOutcome
  | noFileChosen
  | wrongType
  | tooBig
  | malformed
  | virusFound
  | transportFailure (error : String)
  | letterPersisted (fileId : String) (status : String)
deriving DecidableEq

/-- The object key a letter is persisted under (§6). -/
def s3ObjectKey (serviceId fileId : String) : String :=
  "service-" ++ serviceId ++ "/" ++ fileId ++ ".pdf"

/-- Modelled from the spec: the `UploadOrchestrator` submission state machine
(§4.4), for the view `upload_letter` of the absent `app/main/views/uploads.py`.
Returns the outcome together with the ordered list of external capability
calls issued.  No file → `NoFileChosen`; structural-validation failure →
the specific reason, file discarded; then the antivirus scan; a `false` scan
is terminal `VirusFound` with nothing persisted; then sanitization: success
persists the sanitized bytes with status `valid` and a recipient tag (page
count preferring a service-reported value), a structured rejection persists
the original bytes with status `invalid`, the reported message and invalid
pages, and any other failure propagates with nothing persisted. -/
def submitUpload (serviceId fileId : String) (file : Option UploadedFile)
    (env : Env) : UploadOutcome × List ExtCall :=
  match file with
  | none => (.noFileChosen, [])
  | some f =>
    match validatePdf f with
    | .tooBig => (.tooBig, [])
    | .wrongType => (.wrongType, [])
    | .malformed => (.malformed, [])
    | .ok =>
      if env.scanResult then
        match env.sanitiseResult with
        | .failure e => (.transportFailure e, [.scan f.bytes, .sanitise f.bytes])
        | .success content recipient reported =>
          (.letterPersisted fileId "valid",
            [.scan f.bytes, .sanitise f.bytes,
             .put (s3ObjectKey serviceId fileId) content
               ⟨"valid", reported.getD env.localPageCount, f.filename,
                 some recipient, none, none⟩])
        | .rejection msg pages =>
          (.letterPersisted fileId "invalid",
            [.scan f.bytes, .sanitise f.bytes,
             .put (s3ObjectKey serviceId fileId) f.bytes
               ⟨"invalid", env.localPageCount, f.filename,
                 none, some msg, some pages⟩])
      else (.virusFound, [.scan f.bytes])

/-- Modelled from the spec and pinned by the test suite: the HTTP status each
submission outcome is served with.  `Wrong file type` re-renders the form with
status 200 (test at line 233), while `too big` and `malformed` are served with
status 400 (tests at lines 271 and 286); a virus is a 400 (§7, test at line
257); a structured content rejection renders with page-level detail at 200
(§7); a transport failure propagates as a server error. -/
def uploadHttpStatus : UploadOutcome → Nat
  | .noFileChosen => 200
  | .wrongType => 200
  | .tooBig => 400
  | .malformed => 400
  | .virusFound => 400
  | .transportFailure _ => 500
  | .letterPersisted _ _ => 302

/-- The banner heading each locally recovered rejection re-renders the upload
form with, as asserted by the test suite. -/
def uploadErrorTitle : UploadOutcome → Option String
  | .noFileChosen => some "You need to choose a file to upload"
  | .wrongType => some "Wrong file type"
  | .tooBig => some "Your file is too big"
  | .malformed => some "There’s a problem with your file"
  | .virusFound => some "Your file contains a virus"
  | .transportFailure _ => none
  | .letterPersisted _ _ => none

/- ## Preview page fetch -/

/-- A renderer invocation: the plain renderer or the print-safety-overlay
renderer, at a given page (§6 `PreviewRenderer`). -/
inductive RenderCall
  | plain (page : Nat)
  | overlay (page : Nat)
deriving DecidableEq

/-- Modelled from the spec: `fetchPreviewPage` — the view
`view_letter_upload_as_preview` of the absent `app/main/views/uploads.py`
(§4.4 step 9).  Given the stored metadata of the letter and an integer page
request, render with the print-safety overlay iff the stored message equals
`content-outside-printable-area` and the requested page is a member of
`invalid_pages`; otherwise render plain.  The returned list is the list of
renderer invocations made. -/
def fetchPreviewPage (md : LetterMetadata) (page : Nat) : List RenderCall :=
  if md.message = some "content-outside-printable-area" ∧
      page ∈ md.invalid_pages.getD [] then
    [.overlay page]
  else
    [.plain page]

/- ## Send -/

/-- An issuing service: its identifier and the capabilities it holds. -/
structure Service where
  id : String
  permissions : List String
deriving DecidableEq

/-- The send request form: filename, file identifier and postage. -/
structure SendForm where
  filename : String
  file_id : String
  postage : String
deriving DecidableEq

/-- One invocation of `NotificationDispatcher.sendPrecompiledLetter`
(§6): `(serviceId, filename, fileId, postage, recipient)`. -/
structure DispatchCall where
  service_id : String
  filename : String
  file_id : String
  postage : String
  recipient : String
deriving DecidableEq

/-- Outcome of a send request: a terminal denial or a redirect. -/
inductive SendOutcome
  | forbidden
  | redirectTo (url : String)
deriving DecidableEq

/-- HTTP status of a send outcome: denial is a 403, success redirects. -/
def sendHttpStatus : SendOutcome → Nat
  | .forbidden => 403
  | .redirectTo _ => 302

/-- The notification detail view a successful send redirects to, keyed by the
notification identifier. -/
def viewNotificationUrl (serviceId notificationId : String) : String :=
  "/services/" ++ serviceId ++ "/notification/" ++ notificationId

/-- Modelled from the spec: `sendUpload` — the view `send_uploaded_letter` of
the absent `app/main/views/uploads.py` (§4.4 step 10).  Requires the issuing
service to hold both the `letter` and the `upload_letters` capability, checked
first, independent of metadata — denial is terminal; then requires the stored
metadata to have status `valid` — denial is terminal; then dispatches
`sendPrecompiledLetter(serviceId, filename, fileId, postage, recipient)` once
and redirects to the notification detail view keyed by the file identifier.
Returns the outcome with the list of dispatcher invocations made. -/
def sendUpload (svc : Service) (md : LetterMetadata) (form : SendForm) :
    SendOutcome × List DispatchCall :=
  if "letter" ∈ svc.permissions ∧ "upload_letters" ∈ svc.permissions then
    if md.status = "valid" then
      (.redirectTo (viewNotificationUrl svc.id form.file_id),
       [⟨svc.id, form.filename, form.file_id, form.postage,
          md.recipient.getD ""⟩])
    else (.forbidden, [])
  else (.forbidden, [])

/- ## Claim theorems -/

/-- C1: for every send request, a service lacking either the `letter` or the
`upload_letters` capability is denied with 403 and the dispatcher is never
invoked, regardless of metadata status; a service holding both capabilities
but whose stored metadata has status other than `valid` is denied with 403
with no dispatch; and when both capabilities are held and the status is
`valid`, `sendPrecompiledLetter` is called exactly once with
`(serviceId, filename, fileId, postage, recipient)` and the caller is
redirected to the notification detail view keyed by the same file
identifier. -/
theorem sendUpload_permission_and_status_gate :
    (∀ svc md form,
       ("letter" ∉ svc.permissions ∨ "upload_letters" ∉ svc.permissions) →
       sendUpload svc md form = (.forbidden, []) ∧
       sendHttpStatus (sendUpload svc md form).1 = 403) ∧
    (∀ svc md form, "letter" ∈ svc.permissions →
       "upload_letters" ∈ svc.permissions → md.status ≠ "valid" →
       sendUpload svc md form = (.forbidden, []) ∧
       sendHttpStatus (sendUpload svc md form).1 = 403) ∧
    (∀ svc md form r, "letter" ∈ svc.permissions →
       "upload_letters" ∈ svc.permissions → md.status = "valid" →
       md.recipient = some r →
       sendUpload svc md form =
         (.redirectTo (viewNotificationUrl svc.id form.file_id),
          [⟨svc.id, form.filename, form.file_id, form.postage, r⟩])) := by
  refine ⟨?_, ?_, ?_⟩
  · intro svc md form h
    have hn : ¬("letter" ∈ svc.permissions ∧
        "upload_letters" ∈ svc.permissions) := by
      rcases h with h | h <;> exact fun hc => h (by tauto)
    have he : sendUpload svc md form = (.forbidden, []) := by
      unfold sendUpload; rw [if_neg hn]
    exact ⟨he, by rw [he]; rfl⟩
  · intro svc md form h1 h2 h3
    have he : sendUpload svc md form = (.forbidden, []) := by
      unfold sendUpload; rw [if_pos ⟨h1, h2⟩, if_neg h3]
    exact ⟨he, by rw [he]; rfl⟩
  · intro svc md form r h1 h2 h3 hr
    unfold sendUpload
    rw [if_pos ⟨h1, h2⟩, if_pos h3, hr]
    rfl

theorem sendUpload_permission_and_status_gate_witness :
    sendUpload ⟨"service-one", ["letter", "upload_letters"]⟩
        ⟨"valid", 1, "my_file.pdf", some "address", none, none⟩
        ⟨"my_file.pdf", "abcd-1234", "first"⟩ =
      (.redirectTo (viewNotificationUrl "service-one" "abcd-1234"),
       [⟨"service-one", "my_file.pdf", "abcd-1234", "first", "address"⟩]) ∧
    sendUpload ⟨"service-one", ["upload_letters"]⟩
        ⟨"valid", 1, "my_file.pdf", some "address", none, none⟩
        ⟨"my_file.pdf", "abcd-1234", "first"⟩ = (.forbidden, []) ∧
    sendUpload ⟨"service-one", ["letter", "upload_letters"]⟩
        ⟨"invalid", 3, "my_file.pdf", none, some "error", some [1]⟩
        ⟨"my_file.pdf", "abcd-1234", "first"⟩ = (.forbidden, []) :=
  ⟨sendUpload_permission_and_status_gate.2.2 _ _ _ "address"
      (by decide) (by decide) rfl rfl,
   (sendUpload_permission_and_status_gate.1 _ _ _ (Or.inl (by decide))).1,
   (sendUpload_permission_and_status_gate.2.1 _ _ _
      (by decide) (by decide) (by decide)).1⟩

/-- C2: for every stored letter and integer page request, exactly one renderer
is invoked; it is the overlay renderer iff the stored message equals
`content-outside-printable-area` and the requested page is a member of
`invalid_pages`, and the plain renderer in every other page/message
combination (including an absent message). -/
theorem fetchPreviewPage_overlay_iff :
    ∀ md page,
      (fetchPreviewPage md page).length = 1 ∧
      (md.message = some "content-outside-printable-area" ∧
          page ∈ md.invalid_pages.getD [] →
        fetchPreviewPage md page = [.overlay page]) ∧
      (¬(md.message = some "content-outside-printable-area" ∧
          page ∈ md.invalid_pages.getD []) →
        fetchPreviewPage md page = [.plain page]) := by
  intro md page
  unfold fetchPreviewPage
  split
  next h => exact ⟨rfl, fun _ => rfl, fun hn => absurd h hn⟩
  next h => exact ⟨rfl, fun hc => absurd hc h, fun _ => rfl⟩

theorem fetchPreviewPage_overlay_iff_witness :
    fetchPreviewPage ⟨"invalid", 3, "f.pdf", none,
        some "content-outside-printable-area", some [1, 2]⟩ 2 =
      [.overlay 2] ∧
    fetchPreviewPage ⟨"invalid", 3, "f.pdf", none,
        some "content-outside-printable-area", some [1, 2]⟩ 3 =
      [.plain 3] ∧
    fetchPreviewPage ⟨"invalid", 3, "f.pdf", none,
        some "letter-too-long", some [1, 2]⟩ 1 = [.plain 1] ∧
    fetchPreviewPage ⟨"valid", 3, "f.pdf", none, none, none⟩ 1 =
      [.plain 1] :=
  ⟨(fetchPreviewPage_overlay_iff _ 2).2.1 (by decide),
   (fetchPreviewPage_overlay_iff _ 3).2.2 (by decide),
   (fetchPreviewPage_overlay_iff _ 1).2.2 (by decide),
   (fetchPreviewPage_overlay_iff _ 1).2.2 (by decide)⟩

/-- C3: a file whose declared size exceeds 2 MiB always yields `TooBig`, with
no external call at all (so the size check precedes the antivirus scan and the
sanitization gateway), regardless of the environment's scan and sanitize
outcomes; and within the structural validator the checks run in the fixed
order size, byte signature, end-of-file marker, first failure winning. -/
theorem validatePdf_size_first :
    (∀ serviceId fileId f env, f.size > MAX_FILE_UPLOAD_SIZE →
       validatePdf f = .tooBig ∧
       submitUpload serviceId fileId (some f) env = (.tooBig, [])) ∧
    (∀ f : UploadedFile, f.size ≤ MAX_FILE_UPLOAD_SIZE →
       hasPdfSignature f.bytes = false → validatePdf f = .wrongType) ∧
    (∀ f : UploadedFile, f.size ≤ MAX_FILE_UPLOAD_SIZE →
       hasPdfSignature f.bytes = true → hasEofMarker f.bytes = false →
       validatePdf f = .malformed) := by
  refine ⟨?_, ?_, ?_⟩
  · intro serviceId fileId f env h
    have hv : validatePdf f = .tooBig := by unfold validatePdf; rw [if_pos h]
    exact ⟨hv, by simp [submitUpload, hv]⟩
  · intro f h1 h2
    unfold validatePdf
    rw [if_neg (Nat.not_lt.mpr h1)]
    simp [h2]
  · intro f h1 h2 h3
    unfold validatePdf
    rw [if_neg (Nat.not_lt.mpr h1)]
    simp [h2, h3]

theorem validatePdf_size_first_witness :
    submitUpload "service-one" "file-id" (some ⟨[], 3000000, "big.pdf"⟩)
        ⟨true, .failure "boom", 1⟩ = (.tooBig, []) ∧
    validatePdf ⟨[1, 2, 3], 10, "actually_a_png.csv"⟩ = .wrongType :=
  ⟨(validatePdf_size_first.1 "service-one" "file-id" _ _ (by decide)).2,
   validatePdf_size_first.2.1 _ (by decide) (by decide)⟩

/-- C4: when the sanitization gateway returns a structured rejection, the
orchestrator persists the original, unsanitized bytes under the key
`service-{serviceId}/{fileId}.pdf` with status `invalid`, the reported
message, the reported invalid pages and a page count, and with no recipient
tag. -/
theorem submitUpload_rejection_persists_original
    (serviceId fileId : String) (f : UploadedFile) (env : Env)
    (msg : String) (pages : List Nat)
    (hv : validatePdf f = .ok) (hs : env.scanResult = true)
    (hr : env.sanitiseResult = .rejection msg pages) :
    submitUpload serviceId fileId (some f) env =
      (.letterPersisted fileId "invalid",
       [.scan f.bytes, .sanitise f.bytes,
        .put (s3ObjectKey serviceId fileId) f.bytes
          ⟨"invalid", env.localPageCount, f.filename,
            none, some msg, some pages⟩]) := by
  simp [submitUpload, hv, hs, hr]

theorem submitUpload_rejection_persists_original_witness :
    submitUpload "service-one" "1234"
        (some ⟨pdfSignatureBytes ++ eofMarkerBytes, 10, "one_page_pdf.pdf"⟩)
        ⟨true, .rejection "content-outside-printable-area" [1], 1⟩ =
      (.letterPersisted "1234" "invalid",
       [.scan (pdfSignatureBytes ++ eofMarkerBytes),
        .sanitise (pdfSignatureBytes ++ eofMarkerBytes),
        .put (s3ObjectKey "service-one" "1234")
          (pdfSignatureBytes ++ eofMarkerBytes)
          ⟨"invalid", 1, "one_page_pdf.pdf", none,
            some "content-outside-printable-area", some [1]⟩]) :=
  submitUpload_rejection_persists_original _ _ _ _ _ _ (by decide) rfl rfl

/-- C5: when sanitization succeeds, the orchestrator persists the sanitized
bytes (not the original upload) under the key
`service-{serviceId}/{fileId}.pdf` with status `valid`, a page count
(preferring a service-reported value), the filename and a recipient tag. -/
theorem submitUpload_success_persists_sanitized
    (serviceId fileId : String) (f : UploadedFile) (env : Env)
    (content : List Nat) (recipient : String) (reported : Option Nat)
    (hv : validatePdf f = .ok) (hs : env.scanResult = true)
    (ho : env.sanitiseResult = .success content recipient reported) :
    submitUpload serviceId fileId (some f) env =
      (.letterPersisted fileId "valid",
       [.scan f.bytes, .sanitise f.bytes,
        .put (s3ObjectKey serviceId fileId) content
          ⟨"valid", reported.getD env.localPageCount, f.filename,
            some recipient, none, none⟩]) := by
  simp [submitUpload, hv, hs, ho]

theorem submitUpload_success_persists_sanitized_witness :
    submitUpload "service-one" "1234"
        (some ⟨pdfSignatureBytes ++ eofMarkerBytes, 10, "one_page_pdf.pdf"⟩)
        ⟨true, .success [84, 104, 101] "The Queen" none, 1⟩ =
      (.letterPersisted "1234" "valid",
       [.scan (pdfSignatureBytes ++ eofMarkerBytes),
        .sanitise (pdfSignatureBytes ++ eofMarkerBytes),
        .put (s3ObjectKey "service-one" "1234") [84, 104, 101]
          ⟨"valid", 1, "one_page_pdf.pdf", some "The Queen",
            none, none⟩]) :=
  submitUpload_success_persists_sanitized _ _ _ _ _ _ _ (by decide) rfl rfl

/-- C6: when the sanitization gateway fails in any way other than a structured
rejection, the error propagates unmodified to the caller and `ObjectStore.put`
is never invoked — no bytes and no metadata are persisted for the attempt. -/
theorem submitUpload_transport_failure_propagates
    (serviceId fileId : String) (f : UploadedFile) (env : Env) (e : String)
    (hv : validatePdf f = .ok) (hs : env.scanResult = true)
    (he : env.sanitiseResult = .failure e) :
    submitUpload serviceId fileId (some f) env =
      (.transportFailure e, [.scan f.bytes, .sanitise f.bytes]) ∧
    ∀ key content tags,
      ExtCall.put key content tags ∉
        (submitUpload serviceId fileId (some f) env).2 := by
  have h : submitUpload serviceId fileId (some f) env =
      (.transportFailure e, [.scan f.bytes, .sanitise f.bytes]) := by
    simp [submitUpload, hv, hs, he]
  refine ⟨h, ?_⟩
  intro key content tags
  rw [h]
  simp

theorem submitUpload_transport_failure_propagates_witness :
    submitUpload "service-one" "1234"
        (some ⟨pdfSignatureBytes ++ eofMarkerBytes, 10, "one_page_pdf.pdf"⟩)
        ⟨true, .failure "RequestException", 1⟩ =
      (.transportFailure "RequestException",
       [.scan (pdfSignatureBytes ++ eofMarkerBytes),
        .sanitise (pdfSignatureBytes ++ eofMarkerBytes)]) :=
  (submitUpload_transport_failure_propagates _ _ _ _ _
    (by decide) rfl rfl).1

/-- C7: when the antivirus scan returns `false`, the submission terminates
with `VirusFound`, served as an HTTP 400 carrying the generic virus message;
sanitization is never reached and `ObjectStore.put` is never invoked. -/
theorem submitUpload_virus_found
    (serviceId fileId : String) (f : UploadedFile) (env : Env)
    (hv : validatePdf f = .ok) (hs : env.scanResult = false) :
    submitUpload serviceId fileId (some f) env =
      (.virusFound, [.scan f.bytes]) ∧
    uploadHttpStatus (submitUpload serviceId fileId (some f) env).1 = 400 ∧
    uploadErrorTitle (submitUpload serviceId fileId (some f) env).1 =
      some "Your file contains a virus" ∧
    (∀ b, ExtCall.sanitise b ∉
      (submitUpload serviceId fileId (some f) env).2) ∧
    (∀ key content tags, ExtCall.put key content tags ∉
      (submitUpload serviceId fileId (some f) env).2) := by
  have h : submitUpload serviceId fileId (some f) env =
      (.virusFound, [.scan f.bytes]) := by
    simp [submitUpload, hv, hs]
  refine ⟨h, by rw [h]; rfl, by rw [h]; rfl, ?_, ?_⟩
  · intro b; rw [h]; simp
  · intro key content tags; rw [h]; simp

theorem submitUpload_virus_found_witness :
    submitUpload "service-one" "1234"
        (some ⟨pdfSignatureBytes ++ eofMarkerBytes, 10, "one_page_pdf.pdf"⟩)
        ⟨false, .success [] "" none, 1⟩ =
      (.virusFound, [.scan (pdfSignatureBytes ++ eofMarkerBytes)]) :=
  (submitUpload_virus_found _ _ _ _ (by decide) rfl).1

/-- C8: the recipient address normalizer follows the spec's algorithm (it is
defined from it above: comma, newline and carriage return are segment
separators; segments are trimmed; empty segments are dropped; internal
whitespace runs are collapsed to a single space; surviving segments are joined
with a comma and a space); in particular it maps the multi-line palace address
to its single-line form and the empty string to the empty string, and it
satisfies every input/output pair of the source test `test_format_recipient`. -/
theorem format_recipient_examples :
    format_recipient "The Queen,\nBuckingham Palace,\r\nSW1 1AA" =
        "The Queen, Buckingham Palace, SW1 1AA" ∧
    format_recipient "" = "" ∧
    format_recipient "The Queen, Buckingham Palace, SW1 1AA" =
        "The Queen, Buckingham Palace, SW1 1AA" ∧
    format_recipient "The Queen Buckingham Palace SW1 1AA" =
        "The Queen Buckingham Palace SW1 1AA" ∧
    format_recipient "The Queen   ,,\nBuckingham Palace,\rSW1 1AA," =
        "The Queen, Buckingham Palace, SW1 1AA" ∧
    format_recipient "  The Queen\n Buckingham Palace\n SW1 1AA" =
        "The Queen, Buckingham Palace, SW1 1AA" :=
  ⟨by decide, by decide, by decide, by decide, by decide, by decide⟩

/- ## Normalizer lemmas -/

theorem splitCore_no_p (p : Char → Bool) :
    ∀ l : List Char,
      (splitCore p l).1.all (fun c => !p c) = true ∧
      ∀ x ∈ (splitCore p l).2, x.all (fun c => !p c) = true := by
  intro l
  induction l with
  | nil =>
    refine ⟨rfl, ?_⟩
    intro x hx
    simp [splitCore] at hx
  | cons c cs ih =>
    rcases ih with ⟨ih1, ih2⟩
    cases hc : p c with
    | true =>
      refine ⟨by simp [splitCore, hc], ?_⟩
      intro x hx
      simp [splitCore, hc] at hx
      rcases hx with hx | hx
      · rw [hx]; exact ih1
      · exact ih2 x hx
    | false =>
      refine ⟨by simp [splitCore, hc, ih1], ?_⟩
      intro x hx
      simp [splitCore, hc] at hx
      exact ih2 x hx

theorem splitCore_pres (p q : Char → Bool) :
    ∀ l : List Char, l.all q = true →
      (splitCore p l).1.all q = true ∧
      ∀ x ∈ (splitCore p l).2, x.all q = true := by
  intro l
  induction l with
  | nil =>
    intro _
    refine ⟨rfl, ?_⟩
    intro x hx
    simp [splitCore] at hx
  | cons c cs ih =>
    intro h
    rw [List.all_cons, Bool.and_eq_true] at h
    rcases ih h.2 with ⟨ih1, ih2⟩
    cases hc : p c with
    | true =>
      refine ⟨by simp [splitCore, hc], ?_⟩
      intro x hx
      simp [splitCore, hc] at hx
      rcases hx with hx | hx
      · rw [hx]; exact ih1
      · exact ih2 x hx
    | false =>
      refine ⟨by simp [splitCore, hc, ih1, h.1], ?_⟩
      intro x hx
      simp [splitCore, hc] at hx
      exact ih2 x hx

theorem splitCore_no (p : Char → Bool) :
    ∀ l : List Char, l.all (fun c => !p c) = true →
      splitCore p l = (l, []) := by
  intro l
  induction l with
  | nil => intro _; rfl
  | cons c cs ih =>
    intro h
    rw [List.all_cons, Bool.and_eq_true] at h
    have hc : p c = false := by simpa using h.1
    simp [splitCore, hc, ih h.2]

theorem splitCore_append_no (p : Char → Bool) :
    ∀ xs ys : List Char, xs.all (fun c => !p c) = true →
      splitCore p (xs ++ ys) =
        (xs ++ (splitCore p ys).1, (splitCore p ys).2) := by
  intro xs
  induction xs with
  | nil => intro ys _; rfl
  | cons c t ih =>
    intro ys h
    rw [List.all_cons, Bool.and_eq_true] at h
    have hc : p c = false := by simpa using h.1
    simp [splitCore, hc, ih ys h.2]

theorem splitCore_sep (p : Char → Bool) (c : Char) (l : List Char)
    (h : p c = true) :
    splitCore p (c :: l) =
      ([], (splitCore p l).1 :: (splitCore p l).2) := by
  simp [splitCore, h]

theorem splitCore_nosep_cons (p : Char → Bool) (c : Char) (l : List Char)
    (h : p c = false) :
    splitCore p (c :: l) =
      (c :: (splitCore p l).1, (splitCore p l).2) := by
  simp [splitCore, h]

theorem joinSep_all (q : Char → Bool) (sep : List Char) :
    ∀ L : List (List Char), sep.all q = true →
      (∀ x ∈ L, x.all q = true) → (joinSep sep L).all q = true := by
  intro L
  induction L with
  | nil => intro _ _; rfl
  | cons x L ih =>
    intro hs hall
    cases L with
    | nil => simpa [joinSep] using hall x (by simp)
    | cons y L' =>
      have hx := hall x (by simp)
      have ihy := ih hs (fun z hz => hall z (by simp [hz]))
      show (x ++ sep ++ joinSep sep (y :: L')).all q = true
      simp [List.all_append, hx, hs, ihy]

theorem joinSep_ne_nil (sep : List Char) (x : List Char)
    (L : List (List Char)) (hx : x ≠ []) : joinSep sep (x :: L) ≠ [] := by
  cases L with
  | nil => simpa [joinSep] using hx
  | cons y L' =>
    show x ++ sep ++ joinSep sep (y :: L') ≠ []
    simp [List.append_eq_nil, hx]

theorem wordsOf_spec (l : List Char) :
    ∀ w ∈ wordsOf l, w ≠ [] ∧ w.all (fun c => !isWs c) = true := by
  intro w hw
  simp only [wordsOf] at hw
  rw [List.mem_filter] at hw
  rcases hw with ⟨hmem, hne⟩
  have hmem' : w = (splitCore isWs l).1 ∨ w ∈ (splitCore isWs l).2 :=
    List.mem_cons.mp hmem
  constructor
  · intro h; rw [h] at hne; simp at hne
  · rcases hmem' with h | h
    · rw [h]; exact (splitCore_no_p isWs l).1
    · exact (splitCore_no_p isWs l).2 w h

theorem wordsOf_append_word (w z : List Char) (hne : w ≠ [])
    (hnws : w.all (fun c => !isWs c) = true) :
    wordsOf (w ++ (' ' :: z)) = w :: wordsOf z := by
  have hemp : w.isEmpty = false := by
    cases w with
    | nil => exact absurd rfl hne
    | cons a t => rfl
  simp only [wordsOf, piecesOn]
  rw [splitCore_append_no isWs w (' ' :: z) hnws,
    splitCore_sep isWs ' ' z (by decide)]
  simp [List.filter_cons, hemp]

theorem wordsOf_joinSep :
    ∀ L : List (List Char),
      (∀ w ∈ L, w ≠ [] ∧ w.all (fun c => !isWs c) = true) →
      wordsOf (joinSep [' '] L) = L := by
  intro L
  induction L with
  | nil => intro _; rfl
  | cons w L ih =>
    intro hall
    rcases hall w (by simp) with ⟨hne, hnws⟩
    cases L with
    | nil =>
      show wordsOf w = [w]
      have hemp : w.isEmpty = false := by
        cases w with
        | nil => exact absurd rfl hne
        | cons a t => rfl
      simp only [wordsOf, piecesOn]
      rw [splitCore_no isWs w hnws]
      simp [List.filter_cons, hemp]
    | cons v L' =>
      have ih' := ih (fun z hz => hall z (by simp [hz]))
      show wordsOf (w ++ [' '] ++ joinSep [' '] (v :: L')) = w :: v :: L'
      rw [List.append_assoc, List.singleton_append,
        wordsOf_append_word w _ hne hnws, ih']

theorem cleanSeg_space_cons (b : List Char) :
    cleanSeg (' ' :: b) = cleanSeg b := by
  simp only [cleanSeg, wordsOf, piecesOn]
  rw [splitCore_sep isWs ' ' b (by decide)]
  simp [List.filter_cons]

theorem cleanSeg_idem (x : List Char) : cleanSeg (cleanSeg x) = cleanSeg x := by
  have h := wordsOf_joinSep (wordsOf x) (wordsOf_spec x)
  simp only [cleanSeg]
  rw [h]

theorem cleanSeg_all (q : Char → Bool) (hsp : q ' ' = true) (x : List Char)
    (hx : x.all q = true) : (cleanSeg x).all q = true := by
  apply joinSep_all q [' '] (wordsOf x) (by simp [hsp])
  intro w hw
  simp only [wordsOf] at hw
  rw [List.mem_filter] at hw
  have hmem' : w = (splitCore isWs x).1 ∨ w ∈ (splitCore isWs x).2 :=
    List.mem_cons.mp hw.1
  rcases hmem' with h | h
  · rw [h]; exact (splitCore_pres isWs q x hx).1
  · exact (splitCore_pres isWs q x hx).2 w h

theorem segmentsOf_spec (l : List Char) :
    ∀ a ∈ segmentsOf l,
      a ≠ [] ∧ a.all (fun c => !isSep c) = true ∧ cleanSeg a = a := by
  intro a ha
  simp only [segmentsOf] at ha
  rw [List.mem_filter] at ha
  rcases ha with ⟨hmem, hne⟩
  rcases List.mem_map.mp hmem with ⟨y, hy, hya⟩
  have hy' : y = (splitCore isSep l).1 ∨ y ∈ (splitCore isSep l).2 :=
    List.mem_cons.mp hy
  refine ⟨?_, ?_, ?_⟩
  · intro h; rw [h] at hne; simp at hne
  · subst hya
    apply cleanSeg_all _ (by decide)
    rcases hy' with h | h
    · rw [h]; exact (splitCore_no_p isSep l).1
    · exact (splitCore_no_p isSep l).2 y h
  · subst hya
    exact cleanSeg_idem y

theorem segmentsOf_append_seg (a z : List Char) (hne : a ≠ [])
    (hnsep : a.all (fun c => !isSep c) = true) (hcl : cleanSeg a = a) :
    segmentsOf (a ++ (',' :: ' ' :: z)) = a :: segmentsOf z := by
  have hemp : a.isEmpty = false := by
    cases a with
    | nil => exact absurd rfl hne
    | cons c t => rfl
  simp only [segmentsOf, piecesOn]
  rw [splitCore_append_no isSep a (',' :: ' ' :: z) hnsep,
    splitCore_sep isSep ',' (' ' :: z) (by decide),
    splitCore_nosep_cons isSep ' ' z (by decide)]
  simp [List.filter_cons, hemp, hcl, cleanSeg_space_cons]

theorem segmentsOf_joinSep :
    ∀ L : List (List Char),
      (∀ a ∈ L, a ≠ [] ∧ a.all (fun c => !isSep c) = true ∧ cleanSeg a = a) →
      segmentsOf (joinSep [',', ' '] L) = L := by
  intro L
  induction L with
  | nil => intro _; rfl
  | cons a L ih =>
    intro hall
    rcases hall a (by simp) with ⟨hne, hnsep, hcl⟩
    cases L with
    | nil =>
      show segmentsOf a = [a]
      have hemp : a.isEmpty = false := by
        cases a with
        | nil => exact absurd rfl hne
        | cons c t => rfl
      simp only [segmentsOf, piecesOn]
      rw [splitCore_no isSep a hnsep]
      simp [List.filter_cons, hemp, hcl]
    | cons b L' =>
      have ih' := ih (fun z hz => hall z (by simp [hz]))
      show segmentsOf (a ++ [',', ' '] ++ joinSep [',', ' '] (b :: L')) =
        a :: b :: L'
      rw [List.append_assoc]
      have hsh : ([',', ' '] : List Char) ++ joinSep [',', ' '] (b :: L') =
          ',' :: ' ' :: joinSep [',', ' '] (b :: L') := rfl
      rw [hsh, segmentsOf_append_seg a _ hne hnsep hcl, ih']

theorem normalizeChars_idem (l : List Char) :
    normalizeChars (normalizeChars l) = normalizeChars l := by
  simp only [normalizeChars]
  rw [segmentsOf_joinSep (segmentsOf l) (segmentsOf_spec l)]

theorem noDoubledCommas_cons (c : Char) (t : List Char)
    (hc : (c == ',') = false) (ht : noDoubledCommas t = true) :
    noDoubledCommas (c :: t) = true := by
  cases t with
  | nil => rfl
  | cons d t' => simp [noDoubledCommas, hc, ht]

theorem noDoubledCommas_of_noComma :
    ∀ l : List Char, l.all (fun c => !(c == ',')) = true →
      noDoubledCommas l = true := by
  intro l
  induction l with
  | nil => intro _; rfl
  | cons c t ih =>
    intro h
    rw [List.all_cons, Bool.and_eq_true] at h
    exact noDoubledCommas_cons c t (by simpa using h.1) (ih h.2)

theorem noDoubledCommas_append :
    ∀ xs ys : List Char, xs.all (fun c => !(c == ',')) = true →
      noDoubledCommas ys = true → noDoubledCommas (xs ++ ys) = true := by
  intro xs
  induction xs with
  | nil => intro ys _ hys; simpa using hys
  | cons c t ih =>
    intro ys hxs hys
    rw [List.all_cons, Bool.and_eq_true] at hxs
    exact noDoubledCommas_cons c (t ++ ys) (by simpa using hxs.1)
      (ih ys hxs.2 hys)

theorem all_noComma_of_noSep (l : List Char)
    (h : l.all (fun c => !isSep c) = true) :
    l.all (fun c => !(c == ',')) = true := by
  rw [List.all_eq_true] at h ⊢
  intro c hc
  have h2 := h c hc
  simp only [isSep, Bool.not_or, Bool.and_eq_true] at h2
  exact h2.1.1

theorem noDoubledCommas_joinSep :
    ∀ L : List (List Char),
      (∀ a ∈ L, a.all (fun c => !isSep c) = true) →
      noDoubledCommas (joinSep [',', ' '] L) = true := by
  intro L
  induction L with
  | nil => intro _; rfl
  | cons a L ih =>
    intro hall
    have hnc : a.all (fun c => !(c == ',')) = true :=
      all_noComma_of_noSep a (hall a (by simp))
    cases L with
    | nil => exact noDoubledCommas_of_noComma a hnc
    | cons b L' =>
      have ih' := ih (fun z hz => hall z (by simp [hz]))
      show noDoubledCommas (a ++ [',', ' '] ++ joinSep [',', ' '] (b :: L')) =
        true
      rw [List.append_assoc]
      apply noDoubledCommas_append a _ hnc
      have h2 : noDoubledCommas (' ' :: joinSep [',', ' '] (b :: L')) = true :=
        noDoubledCommas_cons ' ' _ (by decide) ih'
      have hpair : (!((',' == ',') && (' ' == ','))) = true := by decide
      show noDoubledCommas (',' :: ' ' :: joinSep [',', ' '] (b :: L')) = true
      simp only [noDoubledCommas, hpair, Bool.true_and]
      exact h2

theorem noHeadSep_of_all (l : List Char)
    (h : l.all (fun c => !isSep c) = true) : noHeadSep l = true := by
  cases l with
  | nil => rfl
  | cons c t =>
    rw [List.all_cons, Bool.and_eq_true] at h
    simpa [noHeadSep] using h.1

theorem noHeadSep_append (xs ys : List Char) (hne : xs ≠ [])
    (h : noHeadSep xs = true) : noHeadSep (xs ++ ys) = true := by
  cases xs with
  | nil => exact absurd rfl hne
  | cons c t => simpa [noHeadSep] using h

theorem noHeadSep_joinSep :
    ∀ L : List (List Char),
      (∀ a ∈ L, a ≠ [] ∧ a.all (fun c => !isSep c) = true) →
      noHeadSep (joinSep [',', ' '] L) = true := by
  intro L
  induction L with
  | nil => intro _; rfl
  | cons a L _ =>
    intro hall
    rcases hall a (by simp) with ⟨hne, hns⟩
    cases L with
    | nil => exact noHeadSep_of_all a hns
    | cons b L' =>
      show noHeadSep (a ++ [',', ' '] ++ joinSep [',', ' '] (b :: L')) = true
      rw [List.append_assoc]
      exact noHeadSep_append a _ hne (noHeadSep_of_all a hns)

theorem noHeadSep_reverse_joinSep :
    ∀ L : List (List Char),
      (∀ a ∈ L, a ≠ [] ∧ a.all (fun c => !isSep c) = true) →
      noHeadSep (joinSep [',', ' '] L).reverse = true := by
  intro L
  induction L with
  | nil => intro _; rfl
  | cons a L ih =>
    intro hall
    rcases hall a (by simp) with ⟨hne, hns⟩
    have hnsr : a.reverse.all (fun c => !isSep c) = true := by
      rw [List.all_eq_true] at hns ⊢
      intro c hc
      exact hns c (List.mem_reverse.mp hc)
    cases L with
    | nil => exact noHeadSep_of_all a.reverse hnsr
    | cons b L' =>
      have ih' := ih (fun z hz => hall z (by simp [hz]))
      have hbne : joinSep [',', ' '] (b :: L') ≠ [] :=
        joinSep_ne_nil _ b L' (hall b (by simp)).1
      have hrne : (joinSep [',', ' '] (b :: L')).reverse ≠ [] := by
        simpa using hbne
      show noHeadSep
        (a ++ [',', ' '] ++ joinSep [',', ' '] (b :: L')).reverse = true
      rw [List.append_assoc, List.reverse_append, List.reverse_append,
        List.append_assoc]
      exact noHeadSep_append _ _ hrne ih'

/-- C9: the recipient normalizer is idempotent —
`normalize (normalize x) = normalize x` for every input string — and for
every input its result contains no doubled commas and no leading or trailing
separator. -/
theorem format_recipient_idempotent_and_clean (s : String) :
    format_recipient (format_recipient s) = format_recipient s ∧
    noDoubledCommas (format_recipient s).data = true ∧
    noEdgeSep (format_recipient s).data = true := by
  have hdata : (format_recipient s).data = normalizeChars s.data := rfl
  refine ⟨?_, ?_, ?_⟩
  · show String.mk (normalizeChars (format_recipient s).data) =
      format_recipient s
    rw [hdata, normalizeChars_idem]
    rfl
  · rw [hdata]
    simp only [normalizeChars]
    exact noDoubledCommas_joinSep (segmentsOf s.data)
      (fun a ha => (segmentsOf_spec s.data a ha).2.1)
  · rw [hdata]
    simp only [noEdgeSep, normalizeChars, Bool.and_eq_true]
    refine ⟨?_, ?_⟩
    · exact noHeadSep_joinSep (segmentsOf s.data)
        (fun a ha => ⟨(segmentsOf_spec s.data a ha).1,
          (segmentsOf_spec s.data a ha).2.1⟩)
    · exact noHeadSep_reverse_joinSep (segmentsOf s.data)
        (fun a ha => ⟨(segmentsOf_spec s.data a ha).1,
          (segmentsOf_spec s.data a ha).2.1⟩)

theorem format_recipient_idempotent_and_clean_witness :
    format_recipient
        (format_recipient "The Queen,\nBuckingham Palace,\r\nSW1 1AA") =
      format_recipient "The Queen,\nBuckingham Palace,\r\nSW1 1AA" ∧
    noDoubledCommas
        (format_recipient "The Queen,\nBuckingham Palace,\r\nSW1 1AA").data =
      true ∧
    noEdgeSep
        (format_recipient "The Queen,\nBuckingham Palace,\r\nSW1 1AA").data =
      true :=
  format_recipient_idempotent_and_clean "The Queen,\nBuckingham Palace,\r\nSW1 1AA"

/-- C10: the structural rejections of the upload endpoint do not share one
HTTP status — a wrong-file-type rejection is served with status 200 while the
too-big and malformed rejections are served with status 400 — even though all
three re-render the upload form with their own specific banner heading. -/
theorem uploadHttpStatus_asymmetry :
    uploadHttpStatus .wrongType = 200 ∧
    uploadHttpStatus .tooBig = 400 ∧
    uploadHttpStatus .malformed = 400 ∧
    uploadErrorTitle .wrongType = some "Wrong file type" ∧
    uploadErrorTitle .tooBig = some "Your file is too big" ∧
    uploadErrorTitle .malformed = some "There’s a problem with your file" :=
  ⟨rfl, rfl, rfl, rfl, rfl, rfl⟩

end Uploads
